import Mathlib

/-!
Verification of the `recursive` proc-macro crate (src/src/lib.rs), which rewrites a
self-recursive Rust function into a trampolined loop.

The embedding mirrors the crate's actual behaviour:
* `transformExpr` embeds `RecursionTransformer::transform_expr` (lib.rs 140-192).
* `transformExprReturn` embeds `transform_expr_return` (lib.rs 132-138).
* `visitStmt`/`visitStmts` embed the first pass of `transform_item_fn` (lib.rs 121),
  i.e. syn's default `VisitMut::visit_item_fn_mut` traversal with the crate's
  overridden `visit_expr_mut`.  Because the override does not recurse, the
  traversal reaches exactly the statement-level expressions (`Stmt::Expr`,
  `Stmt::Semi`, `Local` initializers) and the bodies of nested `Item::Fn`s, and
  `visit_expr_return_mut` is never dispatched (syn only calls it from the default
  `visit_expr_mut`, which is replaced).
* `pass2` embeds the second pass (lib.rs 124-127): clone the last statement
  (`.last().unwrap()`, which panics on an empty body, modelled as `Option.none`),
  re-visit it, and write it back.
* `foldItemFn` embeds `Fold::fold_item_fn` (lib.rs 37-67), the wrapper builder.
  `fold_item_fn` does not fold its children, so `Fold::fold_expr` /
  `Fold::fold_expr_return` (lib.rs 69-109, embedded below as `foldExpr` /
  `foldExprReturn`) are never invoked by `transform_item_fn`.
* `parse_quote!(#func)` as `Ident` panics unless the callee is a single
  identifier; modelled by `exprToIdent` returning `Option.none` (= panic).

Rust syntax is modelled by mutually inductive types with bespoke list types
(`ExprList`, `StmtList`, ...) so that all functions are structurally recursive
and reduce definitionally on closed terms.
-/

namespace Recursive

/-- Literals of the modelled Rust fragment. -/
inductive Lit where
  | int (n : Int)
  | bool (b : Bool)

/-- Binary operators needed by the example programs. -/
inductive BOp where
  | add
  | sub
  | eq
  | gt

/-- Types (syn `Type`): plain paths, tuple types, and the generated
`Action<C, R>` type from the macro's wrapper. -/
inductive Ty where
  | named (segs : List String)
  | tuple (tys : List Ty)
  | action (c r : Ty)

mutual

/-- Patterns (syn `Pat`), restricted to the shapes the crate manipulates. -/
inductive Pat where
  | ident (name : String)
  | wild
  | litP (l : Lit)
  | tuple (ps : PatList)
  | ctor (segs : List String) (ps : PatList)

/-- Bespoke list of patterns (keeps recursion structural). -/
inductive PatList where
  | nil
  | cons (p : Pat) (ps : PatList)

end

mutual

/-- Expressions (syn `Expr`), covering the variants `transform_expr` matches on
(`Call`, `MethodCall`, `Match`, `If`, `Block`, `Return`, `Verbatim`) plus the
leaf shapes that fall into its catch-all arm (literals, paths, binary
operations, tuples, loops, assignments). -/
inductive Expr where
  | lit (l : Lit)
  | path (segs : List String)
  | call (func : Expr) (args : ExprList)
  | methodCall (recv : Expr) (method : String) (args : ExprList)
  | binop (op : BOp) (lhs rhs : Expr)
  | tupleE (es : ExprList)
  | matchE (scrut : Expr) (arms : ArmList)
  | ite (cond : Expr) (thenB : StmtList) (elseB : OExpr)
  | blockE (ss : StmtList)
  | loopE (ss : StmtList)
  | ret (e : OExpr)
  | assign (lhs : String) (rhs : Expr)
  | verbatim (v : VExpr)

/-- Payloads of the `Expr::Verbatim` nodes the macro generates with its
`verbatim!` helper (lib.rs 20-30): `Action::Return(#e)`, `Action::Continue((#args))`
and `Action::Return(())`. -/
inductive VExpr where
  | actionReturn (e : Expr)
  | actionContinue (args : ExprList)
  | actionReturnUnit

/-- Optional expression (bespoke, to stay in the mutual family). -/
inductive OExpr where
  | none
  | some (e : Expr)

/-- Bespoke list of expressions. -/
inductive ExprList where
  | nil
  | cons (e : Expr) (es : ExprList)

/-- Match arms: pattern and body. -/
inductive ArmList where
  | nil
  | cons (p : Pat) (body : Expr) (rest : ArmList)

/-- Statements (syn `Stmt`): `Local` (let), nested `Item::Fn`, the generated
`Action` enum item, `Stmt::Expr` and `Stmt::Semi`. -/
inductive Stmt where
  | localS (p : Pat) (init : OExpr)
  | itemFnS (name : String) (params : List (Pat × Ty)) (output : Option Ty) (body : StmtList)
  | itemEnumS
  | exprS (e : Expr)
  | semiS (e : Expr)

/-- Bespoke list of statements (a block's statement list). -/
inductive StmtList where
  | nil
  | cons (s : Stmt) (ss : StmtList)

end

/-- A function item (syn `ItemFn`): name, parameters in order (pattern, type),
declared return type (absent means unit), body. -/
structure FnDef where
  name : String
  params : List (Pat × Ty)
  output : Option Ty
  body : StmtList

/-- Convert a plain list of statements into the bespoke list. -/
def slist : List Stmt → StmtList
  | [] => StmtList.nil
  | s :: ss => StmtList.cons s (slist ss)

/-- Convert a plain list of expressions into the bespoke list. -/
def elist : List Expr → ExprList
  | [] => ExprList.nil
  | e :: es => ExprList.cons e (elist es)

/-- `parse_quote!(#func)` as `Ident` (lib.rs 146): succeeds exactly when the
callee expression prints as a single identifier; any other shape makes
`parse_quote!` panic, modelled as `Option.none`. -/
def exprToIdent : Expr → Option String
  | Expr.path [s] => Option.some s
  | _ => Option.none

mutual

/-- `RecursionTransformer::transform_expr` (lib.rs 140-192).  `Option.none`
models a panic of `parse_quote!` on a non-identifier callee. -/
def transformExpr (f : String) : Expr → Option Expr
  | Expr.call func args =>
    match exprToIdent func with
    | Option.none => Option.none
    | Option.some id =>
      if id = f then Option.some (Expr.verbatim (VExpr.actionContinue args))
      else Option.some (Expr.verbatim (VExpr.actionReturn (Expr.call func args)))
  | Expr.methodCall recv m args =>
    if m = f then Option.some (Expr.verbatim (VExpr.actionContinue args))
    else Option.some (Expr.verbatim (VExpr.actionReturn (Expr.methodCall recv m args)))
  | Expr.matchE scrut arms =>
    match transformArms f arms with
    | Option.some arms2 => Option.some (Expr.matchE scrut arms2)
    | Option.none => Option.none
  | Expr.ite cond thenB elseB =>
    match transformTail f thenB, transformElse f elseB with
    | Option.some t2, Option.some e2 => Option.some (Expr.ite cond t2 e2)
    | _, _ => Option.none
  | Expr.blockE ss =>
    match transformTail f ss with
    | Option.some ss2 => Option.some (Expr.blockE ss2)
    | Option.none => Option.none
  | Expr.ret e => Option.some (Expr.ret e)
  | Expr.verbatim v => Option.some (Expr.verbatim v)
  | Expr.lit l => Option.some (Expr.verbatim (VExpr.actionReturn (Expr.lit l)))
  | Expr.path segs => Option.some (Expr.verbatim (VExpr.actionReturn (Expr.path segs)))
  | Expr.binop op a b => Option.some (Expr.verbatim (VExpr.actionReturn (Expr.binop op a b)))
  | Expr.tupleE es => Option.some (Expr.verbatim (VExpr.actionReturn (Expr.tupleE es)))
  | Expr.loopE ss => Option.some (Expr.verbatim (VExpr.actionReturn (Expr.loopE ss)))
  | Expr.assign l r => Option.some (Expr.verbatim (VExpr.actionReturn (Expr.assign l r)))

/-- Transforming each arm body of a `match` (lib.rs 164-166). -/
def transformArms (f : String) : ArmList → Option ArmList
  | ArmList.nil => Option.some ArmList.nil
  | ArmList.cons p b rest =>
    match transformExpr f b, transformArms f rest with
    | Option.some b2, Option.some rest2 => Option.some (ArmList.cons p b2 rest2)
    | _, _ => Option.none

/-- Transforming an optional `else` branch (lib.rs 173-175). -/
def transformElse (f : String) : OExpr → Option OExpr
  | OExpr.none => Option.some OExpr.none
  | OExpr.some e =>
    match transformExpr f e with
    | Option.some e2 => Option.some (OExpr.some e2)
    | Option.none => Option.none

/-- Transforming the last statement of a branch/block when it is `Stmt::Expr`
(lib.rs 168-172 and 177-183); all other statements are untouched. -/
def transformTail (f : String) : StmtList → Option StmtList
  | StmtList.nil => Option.some StmtList.nil
  | StmtList.cons (Stmt.exprS e) StmtList.nil =>
    match transformExpr f e with
    | Option.some e2 => Option.some (StmtList.cons (Stmt.exprS e2) StmtList.nil)
    | Option.none => Option.none
  | StmtList.cons s StmtList.nil => Option.some (StmtList.cons s StmtList.nil)
  | StmtList.cons s (StmtList.cons t ts) =>
    match transformTail f (StmtList.cons t ts) with
    | Option.some rest2 => Option.some (StmtList.cons s rest2)
    | Option.none => Option.none

end

/-- `RecursionTransformer::transform_expr_return` (lib.rs 132-138): classify the
operand via `transform_expr`, or install `Action::Return(())` when absent.
This function is unreachable from `transform_item_fn`: its only caller is
`visit_expr_return_mut`, which syn dispatches solely from the default
`visit_expr_mut`, and that method is overridden without recursing. -/
def transformExprReturn (f : String) : OExpr → Option OExpr
  | OExpr.some e =>
    match transformExpr f e with
    | Option.some e2 => Option.some (OExpr.some e2)
    | Option.none => Option.none
  | OExpr.none => Option.some (OExpr.some (Expr.verbatim VExpr.actionReturnUnit))

/-- `Fold::fold_expr` (lib.rs 83-109).  Never invoked by `transform_item_fn`,
because `fold_item_fn` (lib.rs 37-67) does not fold its children. -/
def foldExpr (f : String) : Expr → Option Expr
  | Expr.call func args =>
    match exprToIdent func with
    | Option.none => Option.none
    | Option.some id =>
      if id = f then Option.some (Expr.verbatim (VExpr.actionContinue args))
      else Option.some (Expr.verbatim (VExpr.actionReturn (Expr.call func args)))
  | Expr.methodCall recv m args =>
    if m = f then Option.some (Expr.verbatim (VExpr.actionContinue args))
    else Option.some (Expr.verbatim (VExpr.actionReturn (Expr.methodCall recv m args)))
  | Expr.verbatim v => Option.some (Expr.verbatim v)
  | e => Option.some (Expr.verbatim (VExpr.actionReturn e))

/-- `Fold::fold_expr_return` (lib.rs 69-81).  Also dead code, see `foldExpr`. -/
def foldExprReturn (f : String) : OExpr → Option OExpr
  | OExpr.some e =>
    match foldExpr f e with
    | Option.some e2 => Option.some (OExpr.some e2)
    | Option.none => Option.none
  | OExpr.none => Option.some (OExpr.some (Expr.verbatim VExpr.actionReturnUnit))

mutual

/-- One statement of the first traversal pass (`visit_item_fn_mut`, lib.rs 121):
syn's default `visit_stmt_mut` dispatches `Stmt::Expr`, `Stmt::Semi` and `Local`
initializers to the overridden `visit_expr_mut` (= `transform_expr`), and
recurses into nested function items.  The override does not recurse into
subexpressions, so this is the whole traversal. -/
def visitStmt (f : String) : Stmt → Option Stmt
  | Stmt.localS p (OExpr.some e) =>
    match transformExpr f e with
    | Option.some e2 => Option.some (Stmt.localS p (OExpr.some e2))
    | Option.none => Option.none
  | Stmt.localS p OExpr.none => Option.some (Stmt.localS p OExpr.none)
  | Stmt.itemFnS n ps out b =>
    match visitStmts f b with
    | Option.some b2 => Option.some (Stmt.itemFnS n ps out b2)
    | Option.none => Option.none
  | Stmt.itemEnumS => Option.some Stmt.itemEnumS
  | Stmt.exprS e =>
    match transformExpr f e with
    | Option.some e2 => Option.some (Stmt.exprS e2)
    | Option.none => Option.none
  | Stmt.semiS e =>
    match transformExpr f e with
    | Option.some e2 => Option.some (Stmt.semiS e2)
    | Option.none => Option.none

/-- The first pass over a whole block. -/
def visitStmts (f : String) : StmtList → Option StmtList
  | StmtList.nil => Option.some StmtList.nil
  | StmtList.cons s ss =>
    match visitStmt f s, visitStmts f ss with
    | Option.some s2, Option.some ss2 => Option.some (StmtList.cons s2 ss2)
    | _, _ => Option.none

end

/-- Second pass of `transform_item_fn` (lib.rs 124-127): take the last statement
(`.last().unwrap()` — panics on an empty body, modelled as `Option.none`),
re-visit it, and write it back in place. -/
def pass2 (f : String) : StmtList → Option StmtList
  | StmtList.nil => Option.none
  | StmtList.cons s StmtList.nil =>
    match visitStmt f s with
    | Option.some s2 => Option.some (StmtList.cons s2 StmtList.nil)
    | Option.none => Option.none
  | StmtList.cons s (StmtList.cons t ts) =>
    match pass2 f (StmtList.cons t ts) with
    | Option.some rest2 => Option.some (StmtList.cons s rest2)
    | Option.none => Option.none

mutual

/-- Patterns interpolated in expression position, as in
`let mut acc = (#(#input_pats),*);` (lib.rs 53). -/
def patToExpr : Pat → Expr
  | Pat.ident x => Expr.path [x]
  | Pat.wild => Expr.path ["_"]
  | Pat.litP l => Expr.lit l
  | Pat.tuple ps => Expr.tupleE (patsToExprs ps)
  | Pat.ctor segs ps => Expr.call (Expr.path segs) (patsToExprs ps)

/-- List version of `patToExpr`. -/
def patsToExprs : PatList → ExprList
  | PatList.nil => ExprList.nil
  | PatList.cons p ps => ExprList.cons (patToExpr p) (patsToExprs ps)

end

/-- Convert a plain list of patterns to the bespoke list. -/
def plist : List Pat → PatList
  | [] => PatList.nil
  | p :: ps => PatList.cons p (plist ps)

/-- `(#(#input_pats),*)` as a pattern: Rust's grammar makes a one-element
parenthesisation the element itself, not a 1-tuple. -/
def mkTuplePat : List Pat → Pat
  | [p] => p
  | ps => Pat.tuple (plist ps)

/-- `(#(#input_types),*)` as a type, with the same one-element collapse. -/
def mkTupleTy : List Ty → Ty
  | [t] => t
  | ts => Ty.tuple ts

/-- `(#(#input_pats),*)` / `(#args)` as an expression, same collapse. -/
def mkTupleExpr : List Expr → Expr
  | [e] => e
  | es => Expr.tupleE (elist es)

/-- `(#args)` re-parsed: one element comes back as that element (the
surrounding parenthesis is semantically transparent and never inspected by the
transform, which panics on the callee before looking at arguments, so the
`Expr::Paren` wrapper is not modelled separately); zero or several elements
come back as a tuple. -/
def argsTuple : ExprList → Expr
  | ExprList.cons e ExprList.nil => e
  | es => Expr.tupleE es

mutual

/-- Re-parsing an expression, as `parse_quote!` does to the interpolated
`#block` in `fold_item_fn` (lib.rs 44): `quote!` serialises `Expr::Verbatim`
nodes to their raw tokens, and parsing those tokens yields ordinary syntax, so
no `Verbatim` node survives into the emitted function.  `Action::Return(#e)`
comes back as a real call whose callee is the multi-segment path
`Action::Return`, and `Action::Continue((#args))` as a real call of
`Action::Continue` on the parenthesised argument tuple.  Everything else
re-parses to itself. -/
def reparseExpr : Expr → Expr
  | Expr.lit l => Expr.lit l
  | Expr.path segs => Expr.path segs
  | Expr.call func args => Expr.call (reparseExpr func) (reparseExprs args)
  | Expr.methodCall recv m args => Expr.methodCall (reparseExpr recv) m (reparseExprs args)
  | Expr.binop op a b => Expr.binop op (reparseExpr a) (reparseExpr b)
  | Expr.tupleE es => Expr.tupleE (reparseExprs es)
  | Expr.matchE scrut arms => Expr.matchE (reparseExpr scrut) (reparseArms arms)
  | Expr.ite cond thenB elseB => Expr.ite (reparseExpr cond) (reparseStmts thenB) (reparseOExpr elseB)
  | Expr.blockE ss => Expr.blockE (reparseStmts ss)
  | Expr.loopE ss => Expr.loopE (reparseStmts ss)
  | Expr.ret o => Expr.ret (reparseOExpr o)
  | Expr.assign l r => Expr.assign l (reparseExpr r)
  | Expr.verbatim (VExpr.actionReturn e) =>
    Expr.call (Expr.path ["Action", "Return"]) (ExprList.cons (reparseExpr e) ExprList.nil)
  | Expr.verbatim (VExpr.actionContinue args) =>
    Expr.call (Expr.path ["Action", "Continue"])
      (ExprList.cons (argsTuple (reparseExprs args)) ExprList.nil)
  | Expr.verbatim VExpr.actionReturnUnit =>
    Expr.call (Expr.path ["Action", "Return"]) (ExprList.cons (Expr.tupleE ExprList.nil) ExprList.nil)

/-- Re-parsing an optional expression. -/
def reparseOExpr : OExpr → OExpr
  | OExpr.none => OExpr.none
  | OExpr.some e => OExpr.some (reparseExpr e)

/-- Re-parsing an expression list. -/
def reparseExprs : ExprList → ExprList
  | ExprList.nil => ExprList.nil
  | ExprList.cons e es => ExprList.cons (reparseExpr e) (reparseExprs es)

/-- Re-parsing match arms. -/
def reparseArms : ArmList → ArmList
  | ArmList.nil => ArmList.nil
  | ArmList.cons p b rest => ArmList.cons p (reparseExpr b) (reparseArms rest)

/-- Re-parsing a statement. -/
def reparseStmt : Stmt → Stmt
  | Stmt.localS p o => Stmt.localS p (reparseOExpr o)
  | Stmt.itemFnS n ps out b => Stmt.itemFnS n ps out (reparseStmts b)
  | Stmt.itemEnumS => Stmt.itemEnumS
  | Stmt.exprS e => Stmt.exprS (reparseExpr e)
  | Stmt.semiS e => Stmt.semiS (reparseExpr e)

/-- Re-parsing a statement list. -/
def reparseStmts : StmtList → StmtList
  | StmtList.nil => StmtList.nil
  | StmtList.cons s ss => StmtList.cons (reparseStmt s) (reparseStmts ss)

end

/-- `Fold::fold_item_fn` (lib.rs 37-67): build the rebuilt function.  The
quoted skeleton is fixed, so each generated statement appears literally:
the `Action` enum item, the inner function `{name}_inner` with the single
tuple-shaped parameter and `Action<StateType, ResultType>` return type, the
accumulator initialisation, and the driving loop.  The new block is built by
`parse_quote!` (lib.rs 44), which serialises the interpolated `#block` to
tokens and parses them back, so the rewritten body is embedded via
`reparseStmts`: its `Expr::Verbatim` nodes become ordinary `Action::Return` /
`Action::Continue` calls with multi-segment callees in the emitted function
(the same erasure happens again at the proc-macro boundary, where the output
is a `TokenStream`).  The decomposition of the signature uses `split_inputs` /
`extract_return_type` from the crate's `utils` module, which is not part of
the published sources.
Modelled from the spec: section 4.1 says the Signature Extractor yields the
ordered parameter-pattern list, the ordered parameter-type list, and the
return type defaulting to unit. -/
def foldItemFn (fn : FnDef) (b : StmtList) : FnDef :=
  let pats := fn.params.map Prod.fst
  let tys := fn.params.map Prod.snd
  let retTy := fn.output.getD (Ty.tuple [])
  let inner := fn.name ++ "_inner"
  { name := fn.name
    params := fn.params
    output := fn.output
    body := StmtList.cons Stmt.itemEnumS
      (StmtList.cons
        (Stmt.itemFnS inner [(mkTuplePat pats, mkTupleTy tys)]
          (Option.some (Ty.action (mkTupleTy tys) retTy)) (reparseStmts b))
        (StmtList.cons
          (Stmt.localS (Pat.ident "acc")
            (OExpr.some (mkTupleExpr (pats.map patToExpr))))
          (StmtList.cons
            (Stmt.exprS (Expr.loopE (StmtList.cons
              (Stmt.exprS (Expr.matchE
                (Expr.call (Expr.path [inner]) (ExprList.cons (Expr.path ["acc"]) ExprList.nil))
                (ArmList.cons
                  (Pat.ctor ["Action", "Return"] (PatList.cons (Pat.ident "r") PatList.nil))
                  (Expr.ret (OExpr.some (Expr.path ["r"])))
                  (ArmList.cons
                    (Pat.ctor ["Action", "Continue"] (PatList.cons (Pat.ident "c") PatList.nil))
                    (Expr.assign "acc" (Expr.path ["c"]))
                    ArmList.nil))))
              StmtList.nil)))
            StmtList.nil))) }

/-- `RecursionTransformer::transform_item_fn` (lib.rs 117-130): first pass,
second pass, then rebuild.  `Option.none` models a panic. -/
def transformItemFn (fn : FnDef) : Option FnDef :=
  match visitStmts fn.name fn.body with
  | Option.none => Option.none
  | Option.some b1 =>
    match pass2 fn.name b1 with
    | Option.none => Option.none
    | Option.some b2 => Option.some (foldItemFn fn b2)

/-! ## Dynamic semantics

A fuel-indexed evaluator for the modelled Rust fragment, used to compare the
behaviour of a function with the behaviour of its transformed version on
concrete inputs.  Environments are flat association lists threaded through
evaluation (adequate for the example programs, which do not rely on
block-scoped shadowing); `Flow.ret` models early `return`; running out of fuel
or hitting an unsupported/ill-typed operation yields `Flow.err`.  Nested `fn`
items extend the function environment for the following statements; a called
function's body sees only its own parameters, as in Rust.  A call whose callee
is a single identifier invokes a function; a call whose callee is a
multi-segment path constructs a tagged value, modelling enum tuple-variant
constructors such as the `Action::Return` / `Action::Continue` calls the
macro emits.  A `match` with no matching arm is `Flow.err`, which is also how
the ill-typed code produced by the macro's missed rewrites fails at the
driving loop. -/

/-- Runtime values: integers, booleans, tuples (unit is the empty tuple), and
tagged constructor values such as `Action::Return(v)`. -/
inductive Val where
  | int (n : Int)
  | bool (b : Bool)
  | tuple (vs : List Val)
  | ctor (segs : List String) (vs : List Val)

/-- Evaluation outcome of an expression or statement list. -/
inductive Flow where
  | norm (v : Val)
  | ret (v : Val)
  | err

/-- Evaluation outcome of an argument list. -/
inductive FlowL where
  | norm (vs : List Val)
  | ret (v : Val)
  | err

/-- Variable environment. -/
abbrev Env := List (String × Val)

/-- Function environment: name to (parameters, body). -/
abbrev Funs := List (String × (List (Pat × Ty) × StmtList))

/-- Innermost binding of a variable. -/
def lookupVar : Env → String → Option Val
  | [], _ => Option.none
  | (y, v) :: env, x => if y = x then Option.some v else lookupVar env x

/-- Overwrite the innermost binding of a variable (used by `acc = c`). -/
def updateVar : Env → String → Val → Option Env
  | [], _, _ => Option.none
  | (y, v) :: env, x, w =>
    if y = x then Option.some ((y, w) :: env)
    else match updateVar env x w with
      | Option.some env2 => Option.some ((y, v) :: env2)
      | Option.none => Option.none

/-- Lookup in the function environment. -/
def lookupFn : Funs → String → Option (List (Pat × Ty) × StmtList)
  | [], _ => Option.none
  | (y, d) :: fs, x => if y = x then Option.some d else lookupFn fs x

mutual

/-- Match a value against a pattern, producing the bindings. -/
def matchPat : Pat → Val → Option (List (String × Val))
  | Pat.ident x, v => Option.some [(x, v)]
  | Pat.wild, _ => Option.some []
  | Pat.litP (Lit.int n), Val.int m => if n = m then Option.some [] else Option.none
  | Pat.litP (Lit.bool b), Val.bool c => if b = c then Option.some [] else Option.none
  | Pat.litP _, _ => Option.none
  | Pat.tuple ps, Val.tuple vs => matchPats ps vs
  | Pat.tuple _, _ => Option.none
  | Pat.ctor segs ps, Val.ctor segs2 vs =>
    if segs = segs2 then matchPats ps vs else Option.none
  | Pat.ctor _ _, _ => Option.none

/-- Match a list of values against a list of patterns. -/
def matchPats : PatList → List Val → Option (List (String × Val))
  | PatList.nil, [] => Option.some []
  | PatList.cons p ps, v :: vs =>
    match matchPat p v, matchPats ps vs with
    | Option.some a, Option.some b => Option.some (a ++ b)
    | _, _ => Option.none
  | _, _ => Option.none

end

/-- Bind a function's parameter patterns to argument values. -/
def bindParams : List (Pat × Ty) → List Val → Option Env
  | [], [] => Option.some []
  | (p, _) :: ps, v :: vs =>
    match matchPat p v, bindParams ps vs with
    | Option.some a, Option.some b => Option.some (a ++ b)
    | _, _ => Option.none
  | _, _ => Option.none

/-- Semantics of a binary operator on values. -/
def evalBOp : BOp → Val → Val → Option Val
  | BOp.add, Val.int a, Val.int b => Option.some (Val.int (a + b))
  | BOp.sub, Val.int a, Val.int b => Option.some (Val.int (a - b))
  | BOp.eq, Val.int a, Val.int b => Option.some (Val.bool (decide (a = b)))
  | BOp.eq, Val.bool a, Val.bool b => Option.some (Val.bool (decide (a = b)))
  | BOp.gt, Val.int a, Val.int b => Option.some (Val.bool (decide (b < a)))
  | _, _, _ => Option.none

/-- `(#args)`: a one-element argument tuple collapses to the value itself. -/
def collapseTuple : List Val → Val
  | [v] => v
  | vs => Val.tuple vs

mutual

/-- Evaluate an expression.  Returns the updated environment and the flow. -/
def evalExpr (fs : Funs) : Nat → Env → Expr → Env × Flow
  | 0, env, _ => (env, Flow.err)
  | fuel + 1, env, e =>
    match e with
    | Expr.lit (Lit.int n) => (env, Flow.norm (Val.int n))
    | Expr.lit (Lit.bool b) => (env, Flow.norm (Val.bool b))
    | Expr.path [x] =>
      match lookupVar env x with
      | Option.some v => (env, Flow.norm v)
      | Option.none => (env, Flow.err)
    | Expr.path _ => (env, Flow.err)
    | Expr.call (Expr.path [g]) args =>
      match evalExprs fs fuel env args with
      | (env1, FlowL.norm vs) =>
        match callFn fs fuel g vs with
        | Flow.norm v => (env1, Flow.norm v)
        | fl => (env1, fl)
      | (env1, FlowL.ret v) => (env1, Flow.ret v)
      | (env1, FlowL.err) => (env1, Flow.err)
    | Expr.call (Expr.path (s1 :: s2 :: segs)) args =>
      match evalExprs fs fuel env args with
      | (env1, FlowL.norm vs) => (env1, Flow.norm (Val.ctor (s1 :: s2 :: segs) vs))
      | (env1, FlowL.ret v) => (env1, Flow.ret v)
      | (env1, FlowL.err) => (env1, Flow.err)
    | Expr.call _ _ => (env, Flow.err)
    | Expr.methodCall _ _ _ => (env, Flow.err)
    | Expr.binop op a b =>
      match evalExpr fs fuel env a with
      | (env1, Flow.norm va) =>
        match evalExpr fs fuel env1 b with
        | (env2, Flow.norm vb) =>
          match evalBOp op va vb with
          | Option.some v => (env2, Flow.norm v)
          | Option.none => (env2, Flow.err)
        | r => r
      | r => r
    | Expr.tupleE es =>
      match evalExprs fs fuel env es with
      | (env1, FlowL.norm vs) => (env1, Flow.norm (Val.tuple vs))
      | (env1, FlowL.ret v) => (env1, Flow.ret v)
      | (env1, FlowL.err) => (env1, Flow.err)
    | Expr.matchE scrut arms =>
      match evalExpr fs fuel env scrut with
      | (env1, Flow.norm v) => evalArms fs fuel env1 v arms
      | r => r
    | Expr.ite cond thenB elseB =>
      match evalExpr fs fuel env cond with
      | (env1, Flow.norm (Val.bool true)) => evalStmts fs fuel env1 thenB
      | (env1, Flow.norm (Val.bool false)) =>
        match elseB with
        | OExpr.some el => evalExpr fs fuel env1 el
        | OExpr.none => (env1, Flow.norm (Val.tuple []))
      | (env1, Flow.norm _) => (env1, Flow.err)
      | r => r
    | Expr.blockE ss => evalStmts fs fuel env ss
    | Expr.loopE ss =>
      match evalStmts fs fuel env ss with
      | (env1, Flow.norm _) => evalExpr fs fuel env1 (Expr.loopE ss)
      | r => r
    | Expr.ret (OExpr.some e1) =>
      match evalExpr fs fuel env e1 with
      | (env1, Flow.norm v) => (env1, Flow.ret v)
      | r => r
    | Expr.ret OExpr.none => (env, Flow.ret (Val.tuple []))
    | Expr.assign x rhs =>
      match evalExpr fs fuel env rhs with
      | (env1, Flow.norm v) =>
        match updateVar env1 x v with
        | Option.some env2 => (env2, Flow.norm (Val.tuple []))
        | Option.none => (env1, Flow.err)
      | r => r
    | Expr.verbatim (VExpr.actionReturn e1) =>
      match evalExpr fs fuel env e1 with
      | (env1, Flow.norm v) => (env1, Flow.norm (Val.ctor ["Action", "Return"] [v]))
      | r => r
    | Expr.verbatim (VExpr.actionContinue args) =>
      match evalExprs fs fuel env args with
      | (env1, FlowL.norm vs) =>
        (env1, Flow.norm (Val.ctor ["Action", "Continue"] [collapseTuple vs]))
      | (env1, FlowL.ret v) => (env1, Flow.ret v)
      | (env1, FlowL.err) => (env1, Flow.err)
    | Expr.verbatim VExpr.actionReturnUnit =>
      (env, Flow.norm (Val.ctor ["Action", "Return"] [Val.tuple []]))

/-- Evaluate an argument list left to right. -/
def evalExprs (fs : Funs) : Nat → Env → ExprList → Env × FlowL
  | 0, env, _ => (env, FlowL.err)
  | fuel + 1, env, es =>
    match es with
    | ExprList.nil => (env, FlowL.norm [])
    | ExprList.cons e rest =>
      match evalExpr fs fuel env e with
      | (env1, Flow.norm v) =>
        match evalExprs fs fuel env1 rest with
        | (env2, FlowL.norm vs) => (env2, FlowL.norm (v :: vs))
        | r => r
      | (env1, Flow.ret v) => (env1, FlowL.ret v)
      | (env1, Flow.err) => (env1, FlowL.err)

/-- Try the arms of a `match` in order; no matching arm is an error. -/
def evalArms (fs : Funs) : Nat → Env → Val → ArmList → Env × Flow
  | 0, env, _, _ => (env, Flow.err)
  | fuel + 1, env, v, arms =>
    match arms with
    | ArmList.nil => (env, Flow.err)
    | ArmList.cons p body rest =>
      match matchPat p v with
      | Option.some binds => evalExpr fs fuel (binds ++ env) body
      | Option.none => evalArms fs fuel env v rest

/-- Evaluate a statement list; the value of the block is the value of a final
`Stmt::Expr`, otherwise unit.  Nested `fn` items extend the function
environment for the remaining statements. -/
def evalStmts (fs : Funs) : Nat → Env → StmtList → Env × Flow
  | 0, env, _ => (env, Flow.err)
  | fuel + 1, env, ss =>
    match ss with
    | StmtList.nil => (env, Flow.norm (Val.tuple []))
    | StmtList.cons (Stmt.exprS e) StmtList.nil => evalExpr fs fuel env e
    | StmtList.cons s StmtList.nil =>
      match evalStmt1 fs fuel env s with
      | (env1, Flow.norm _) => (env1, Flow.norm (Val.tuple []))
      | r => r
    | StmtList.cons (Stmt.itemFnS n ps _ b) rest =>
      evalStmts ((n, (ps, b)) :: fs) fuel env rest
    | StmtList.cons s rest =>
      match evalStmt1 fs fuel env s with
      | (env1, Flow.norm _) => evalStmts fs fuel env1 rest
      | r => r

/-- Evaluate a single non-final statement for its effect. -/
def evalStmt1 (fs : Funs) : Nat → Env → Stmt → Env × Flow
  | 0, env, _ => (env, Flow.err)
  | fuel + 1, env, s =>
    match s with
    | Stmt.localS p (OExpr.some e) =>
      match evalExpr fs fuel env e with
      | (env1, Flow.norm v) =>
        match matchPat p v with
        | Option.some binds => (binds ++ env1, Flow.norm (Val.tuple []))
        | Option.none => (env1, Flow.err)
      | r => r
    | Stmt.localS _ OExpr.none => (env, Flow.norm (Val.tuple []))
    | Stmt.itemFnS _ _ _ _ => (env, Flow.norm (Val.tuple []))
    | Stmt.itemEnumS => (env, Flow.norm (Val.tuple []))
    | Stmt.exprS e =>
      match evalExpr fs fuel env e with
      | (env1, Flow.norm _) => (env1, Flow.norm (Val.tuple []))
      | r => r
    | Stmt.semiS e =>
      match evalExpr fs fuel env e with
      | (env1, Flow.norm _) => (env1, Flow.norm (Val.tuple []))
      | r => r

/-- Call a function by name: bind parameters, run the body, absorb `return`. -/
def callFn (fs : Funs) : Nat → String → List Val → Flow
  | 0, _, _ => Flow.err
  | fuel + 1, g, vs =>
    match lookupFn fs g with
    | Option.none => Flow.err
    | Option.some (ps, body) =>
      match bindParams ps vs with
      | Option.none => Flow.err
      | Option.some env0 =>
        match evalStmts fs fuel env0 body with
        | (_, Flow.norm v) => Flow.norm v
        | (_, Flow.ret v) => Flow.norm v
        | (_, Flow.err) => Flow.err

end

/-- Final result of running a function on arguments. -/
inductive Res where
  | ok (v : Val)
  | err

/-- Run a named function from a list of top-level function items. -/
def runProgram (fns : List FnDef) (name : String) (args : List Val) (fuel : Nat) : Res :=
  match callFn (fns.map fun fn => (fn.name, (fn.params, fn.body))) fuel name args with
  | Flow.norm v => Res.ok v
  | Flow.ret v => Res.ok v
  | Flow.err => Res.err

/-- Run the transformed version of a function on arguments (the transformed
item replaces the original, as the attribute macro does). -/
def runTransformed (fn : FnDef) (args : List Val) (fuel : Nat) : Res :=
  match transformItemFn fn with
  | Option.some t => runProgram [t] fn.name args fuel
  | Option.none => Res.err

/-! ## Tail positions as visited by `transform_expr`

`transform_expr` descends from an expression it is given into: each arm body of
a `match`, the final `Stmt::Expr` of an `if`'s then-branch, the `else` branch,
and the final `Stmt::Expr` of a block.  A path of such steps is a `Dir` list;
`subAt e ds` returns the expression at that tail position, when it exists. -/

/-- One step into a classifier-visited tail position. -/
inductive Dir where
  | arm (i : Nat)
  | thenLast
  | elseB
  | blockLast

/-- The `i`-th arm of a match. -/
def armsGet : ArmList → Nat → Option (Pat × Expr)
  | ArmList.nil, _ => Option.none
  | ArmList.cons p b _, 0 => Option.some (p, b)
  | ArmList.cons _ _ rest, i + 1 => armsGet rest i

/-- Last statement of a statement list. -/
def lastOf : StmtList → Option Stmt
  | StmtList.nil => Option.none
  | StmtList.cons s StmtList.nil => Option.some s
  | StmtList.cons _ (StmtList.cons t ts) => lastOf (StmtList.cons t ts)

/-- The expression at a classifier-visited tail position, following exactly the
recursion of `transform_expr` (match arms, then-branch final `Stmt::Expr`,
else branch, block final `Stmt::Expr`). -/
def subAt : Expr → List Dir → Option Expr
  | e, [] => Option.some e
  | Expr.matchE _ arms, Dir.arm i :: ds =>
    match armsGet arms i with
    | Option.some pb => subAt pb.2 ds
    | Option.none => Option.none
  | Expr.ite _ thenB _, Dir.thenLast :: ds =>
    match lastOf thenB with
    | Option.some (Stmt.exprS e) => subAt e ds
    | _ => Option.none
  | Expr.ite _ _ (OExpr.some el), Dir.elseB :: ds => subAt el ds
  | Expr.blockE ss, Dir.blockLast :: ds =>
    match lastOf ss with
    | Option.some (Stmt.exprS e) => subAt e ds
    | _ => Option.none
  | _, _ => Option.none

/-- Leaves for the classifier: expression shapes that `transform_expr` rewrites
in place rather than descending into or ignoring (not a match, conditional,
block, `return`, or already-generated verbatim node). -/
def isTailLeaf : Expr → Bool
  | Expr.matchE _ _ => false
  | Expr.ite _ _ _ => false
  | Expr.blockE _ => false
  | Expr.ret _ => false
  | Expr.verbatim _ => false
  | _ => true

/-- A self-recursion target: a direct call whose callee identifier is the
enclosing function's name, or a method call with that method name. -/
def isSelfTarget (f : String) : Expr → Bool
  | Expr.call func _ => decide (exprToIdent func = Option.some f)
  | Expr.methodCall _ m _ => decide (m = f)
  | _ => false

/-! ## Accessors for the rebuilt function -/

/-- The rewritten body placed inside the generated inner function. -/
def innerBody : FnDef → Option StmtList
  | { body := StmtList.cons Stmt.itemEnumS (StmtList.cons (Stmt.itemFnS _ _ _ b) _), .. } =>
    Option.some b
  | _ => Option.none

/-- The identifier of the generated inner function. -/
def innerFnName : FnDef → Option String
  | { body := StmtList.cons Stmt.itemEnumS (StmtList.cons (Stmt.itemFnS n _ _ _) _), .. } =>
    Option.some n
  | _ => Option.none

/-- Initializer of a leading `let` statement. -/
def firstLocalInit : StmtList → Option Expr
  | StmtList.cons (Stmt.localS _ (OExpr.some e)) _ => Option.some e
  | _ => Option.none

/-- The callee path of a call expression, `[]` otherwise. -/
def calleePath : Option Expr → List String
  | Option.some (Expr.call (Expr.path segs) _) => segs
  | _ => []

/-! ## Panic-freedom predicate

`transform_item_fn` can only panic at `parse_quote!(#func)` on a call whose
callee is not a single identifier (at a visited position), or at
`.last().unwrap()` on an empty body.  `okExpr`/`okStmts` follow exactly the
positions the traversal visits. -/

mutual

/-- Every call at a position `transform_expr` visits has an identifier callee. -/
def okExpr : Expr → Bool
  | Expr.call func _ => (exprToIdent func).isSome
  | Expr.matchE _ arms => okArms arms
  | Expr.ite _ thenB elseB => okTail thenB && okElse elseB
  | Expr.blockE ss => okTail ss
  | _ => true

/-- `okExpr` on each arm body. -/
def okArms : ArmList → Bool
  | ArmList.nil => true
  | ArmList.cons _ b rest => okExpr b && okArms rest

/-- `okExpr` on an else branch. -/
def okElse : OExpr → Bool
  | OExpr.none => true
  | OExpr.some e => okExpr e

/-- `okExpr` on the final `Stmt::Expr` of a branch/block. -/
def okTail : StmtList → Bool
  | StmtList.nil => true
  | StmtList.cons (Stmt.exprS e) StmtList.nil => okExpr e
  | StmtList.cons _ StmtList.nil => true
  | StmtList.cons _ (StmtList.cons t ts) => okTail (StmtList.cons t ts)

end

mutual

/-- `okExpr` at the statement-level expressions the first pass visits. -/
def okStmt : Stmt → Bool
  | Stmt.localS _ (OExpr.some e) => okExpr e
  | Stmt.localS _ OExpr.none => true
  | Stmt.itemFnS _ _ _ b => okStmts b
  | Stmt.itemEnumS => true
  | Stmt.exprS e => okExpr e
  | Stmt.semiS e => okExpr e

/-- `okStmt` on every statement of a block. -/
def okStmts : StmtList → Bool
  | StmtList.nil => true
  | StmtList.cons s ss => okStmt s && okStmts ss

end

/-! ## Concrete programs used as inputs -/

/-- Spec scenario 1: `fn sum_to(n: i32, acc: i32) -> i32 { if n == 0 { return acc }
return sum_to(n - 1, acc + n) }`, a terminating self-recursive function whose
recursive call is in tail position (the operand of an explicit `return`). -/
def sumTo : FnDef :=
  { name := "sum_to"
    params := [(Pat.ident "n", Ty.named ["i32"]), (Pat.ident "acc", Ty.named ["i32"])]
    output := Option.some (Ty.named ["i32"])
    body := slist
      [ Stmt.exprS (Expr.ite (Expr.binop BOp.eq (Expr.path ["n"]) (Expr.lit (Lit.int 0)))
          (slist [Stmt.exprS (Expr.ret (OExpr.some (Expr.path ["acc"])))])
          OExpr.none)
      , Stmt.exprS (Expr.ret (OExpr.some (Expr.call (Expr.path ["sum_to"])
          (elist [ Expr.binop BOp.sub (Expr.path ["n"]) (Expr.lit (Lit.int 1))
                 , Expr.binop BOp.add (Expr.path ["acc"]) (Expr.path ["n"]) ])))) ] }

/-- `fn g(n: i32) { if n > 0 { g(n - 1) } }`: a tail-recursive function whose
body ends in a conditional with no else branch. -/
def gIf : FnDef :=
  { name := "g"
    params := [(Pat.ident "n", Ty.named ["i32"])]
    output := Option.none
    body := slist
      [ Stmt.exprS (Expr.ite (Expr.binop BOp.gt (Expr.path ["n"]) (Expr.lit (Lit.int 0)))
          (slist [Stmt.exprS (Expr.call (Expr.path ["g"])
            (elist [Expr.binop BOp.sub (Expr.path ["n"]) (Expr.lit (Lit.int 1))]))])
          OExpr.none) ] }

/-- `fn f(x: i32) -> i32 { return 42; }`: a body whose only exit is an explicit
`return` statement. -/
def f7 : FnDef :=
  { name := "f"
    params := [(Pat.ident "x", Ty.named ["i32"])]
    output := Option.some (Ty.named ["i32"])
    body := slist [Stmt.semiS (Expr.ret (OExpr.some (Expr.lit (Lit.int 42))))] }

/-- `fn f(n: i32) -> i32 { let x = f(n - 1); x }`: a recursive call in a `let`
initializer, a non-tail position. -/
def fLet : FnDef :=
  { name := "f"
    params := [(Pat.ident "n", Ty.named ["i32"])]
    output := Option.some (Ty.named ["i32"])
    body := slist
      [ Stmt.localS (Pat.ident "x") (OExpr.some (Expr.call (Expr.path ["f"])
          (elist [Expr.binop BOp.sub (Expr.path ["n"]) (Expr.lit (Lit.int 1))])))
      , Stmt.exprS (Expr.path ["x"]) ] }

/-- `fn f(n: i32) -> i32 { f(n) }`: minimal self-tail-call function, used to
compare one application of the macro with two. -/
def f0 : FnDef :=
  { name := "f"
    params := [(Pat.ident "n", Ty.named ["i32"])]
    output := Option.some (Ty.named ["i32"])
    body := slist [Stmt.exprS (Expr.call (Expr.path ["f"]) (elist [Expr.path ["n"]]))] }

/-- `fn f() { }`: an empty body. -/
def emptyFn : FnDef := { name := "f", params := [], output := Option.none, body := StmtList.nil }

/-- `fn f(n: i32) -> i32 { m::g(n) }`: a tail call whose callee is a
multi-segment path. -/
def pathCalleeFn : FnDef :=
  { name := "f"
    params := [(Pat.ident "n", Ty.named ["i32"])]
    output := Option.some (Ty.named ["i32"])
    body := slist [Stmt.exprS (Expr.call (Expr.path ["m", "g"]) (elist [Expr.path ["n"]]))] }

/-! ## General lemmas about the rewrite -/

/-- The rewrite leaves `Expr::Verbatim` nodes unchanged (lib.rs 184-187). -/
theorem transformExpr_verbatim (f : String) (v : VExpr) :
    transformExpr f (Expr.verbatim v) = Option.some (Expr.verbatim v) := by
  simp [transformExpr]

/-- Arm lookup commutes with transforming the arms of a `match`. -/
theorem transformArms_armsGet (f : String) :
    ∀ (arms arms2 : ArmList) (i : Nat) (p : Pat) (b : Expr),
      transformArms f arms = Option.some arms2 → armsGet arms i = Option.some (p, b) →
      ∃ b2, transformExpr f b = Option.some b2 ∧ armsGet arms2 i = Option.some (p, b2)
  | ArmList.nil, _, i, p, b, _, h2 => by simp [armsGet] at h2
  | ArmList.cons q c rest, arms2, 0, p, b, h1, h2 => by
    simp only [armsGet, Option.some.injEq, Prod.mk.injEq] at h2
    obtain ⟨rfl, rfl⟩ := h2
    simp only [transformArms] at h1
    cases hc : transformExpr f c with
    | none => rw [hc] at h1; simp at h1
    | some c2 =>
      rw [hc] at h1
      cases hr : transformArms f rest with
      | none => rw [hr] at h1; simp at h1
      | some rest2 =>
        rw [hr] at h1
        simp only [Option.some.injEq] at h1
        subst h1
        exact ⟨c2, by simp [hc], by simp [armsGet]⟩
  | ArmList.cons q c rest, arms2, i + 1, p, b, h1, h2 => by
    simp only [armsGet] at h2
    simp only [transformArms] at h1
    cases hc : transformExpr f c with
    | none => rw [hc] at h1; simp at h1
    | some c2 =>
      rw [hc] at h1
      cases hr : transformArms f rest with
      | none => rw [hr] at h1; simp at h1
      | some rest2 =>
        rw [hr] at h1
        simp only [Option.some.injEq] at h1
        subst h1
        obtain ⟨b2, hb2, hg⟩ := transformArms_armsGet f rest rest2 i p b hr h2
        exact ⟨b2, hb2, by simpa [armsGet] using hg⟩

/-- Transforming the tail of a branch/block commutes with taking its last
statement when that statement is a `Stmt::Expr`. -/
theorem transformTail_lastOf (f : String) :
    ∀ (ss ss2 : StmtList) (e : Expr),
      transformTail f ss = Option.some ss2 → lastOf ss = Option.some (Stmt.exprS e) →
      ∃ e2, transformExpr f e = Option.some e2 ∧ lastOf ss2 = Option.some (Stmt.exprS e2)
  | StmtList.nil, _, e, _, h2 => by simp [lastOf] at h2
  | StmtList.cons s StmtList.nil, ss2, e, h1, h2 => by
    simp only [lastOf, Option.some.injEq] at h2
    subst h2
    simp only [transformTail] at h1
    cases he : transformExpr f e with
    | none => rw [he] at h1; simp at h1
    | some e2 =>
      rw [he] at h1
      simp only [Option.some.injEq] at h1
      subst h1
      exact ⟨e2, by simp [he], by simp [lastOf]⟩
  | StmtList.cons s (StmtList.cons t ts), ss2, e, h1, h2 => by
    simp only [lastOf] at h2
    simp only [transformTail] at h1
    cases hr : transformTail f (StmtList.cons t ts) with
    | none => rw [hr] at h1; simp at h1
    | some rest2 =>
      rw [hr] at h1
      simp only [Option.some.injEq] at h1
      subst h1
      obtain ⟨e2, he2, hl⟩ := transformTail_lastOf f (StmtList.cons t ts) rest2 e hr h2
      refine ⟨e2, he2, ?_⟩
      cases rest2 with
      | nil => simp [lastOf] at hl
      | cons u us => simpa [lastOf] using hl

/-- Master lemma: `transform_expr` commutes with descending to any
classifier-visited tail position.  If the rewrite of `e` succeeds and `sub`
sits at tail position `ds` inside `e`, then the rewrite visited `sub` and the
output has the rewritten `sub` at the same position. -/
theorem transform_subAt (f : String) :
    ∀ (ds : List Dir) (e r sub : Expr),
      transformExpr f e = Option.some r → subAt e ds = Option.some sub →
      ∃ r2, transformExpr f sub = Option.some r2 ∧ subAt r ds = Option.some r2
  | [], e, r, sub, h1, h2 => by
    simp only [subAt, Option.some.injEq] at h2
    subst h2
    exact ⟨r, h1, by simp [subAt]⟩
  | Dir.arm i :: ds, e, r, sub, h1, h2 => by
    cases e with
    | matchE scrut arms =>
      simp only [subAt] at h2
      cases hg : armsGet arms i with
      | none => rw [hg] at h2; simp at h2
      | some pb =>
        rw [hg] at h2
        simp only [transformExpr] at h1
        cases ha : transformArms f arms with
        | none => rw [ha] at h1; simp at h1
        | some arms2 =>
          rw [ha] at h1
          simp only [Option.some.injEq] at h1
          subst h1
          obtain ⟨b2, hb2, hg2⟩ := transformArms_armsGet f arms arms2 i pb.1 pb.2 ha hg
          obtain ⟨r2, hr2, hs2⟩ := transform_subAt f ds pb.2 b2 sub hb2 h2
          exact ⟨r2, hr2, by simp [subAt, hg2, hs2]⟩
    | lit l => simp [subAt] at h2
    | path segs => simp [subAt] at h2
    | call func args => simp [subAt] at h2
    | methodCall recv m args => simp [subAt] at h2
    | binop op a b => simp [subAt] at h2
    | tupleE es => simp [subAt] at h2
    | ite c t el => simp [subAt] at h2
    | blockE ss => simp [subAt] at h2
    | loopE ss => simp [subAt] at h2
    | ret o => simp [subAt] at h2
    | assign l r0 => simp [subAt] at h2
    | verbatim v => simp [subAt] at h2
  | Dir.thenLast :: ds, e, r, sub, h1, h2 => by
    cases e with
    | ite cond thenB elseB =>
      simp only [subAt] at h2
      cases hl : lastOf thenB with
      | none => rw [hl] at h2; simp at h2
      | some s =>
        rw [hl] at h2
        cases s with
        | exprS te =>
          simp only [transformExpr] at h1
          cases ht : transformTail f thenB with
          | none => rw [ht] at h1; simp at h1
          | some t2 =>
            rw [ht] at h1
            cases hel : transformElse f elseB with
            | none => rw [hel] at h1; simp at h1
            | some e2 =>
              rw [hel] at h1
              simp only [Option.some.injEq] at h1
              subst h1
              obtain ⟨te2, hte2, hl2⟩ := transformTail_lastOf f thenB t2 te ht hl
              obtain ⟨r2, hr2, hs2⟩ := transform_subAt f ds te te2 sub hte2 h2
              exact ⟨r2, hr2, by simp [subAt, hl2, hs2]⟩
        | localS p o => simp at h2
        | itemFnS n ps o b => simp at h2
        | itemEnumS => simp at h2
        | semiS se => simp at h2
    | lit l => simp [subAt] at h2
    | path segs => simp [subAt] at h2
    | call func args => simp [subAt] at h2
    | methodCall recv m args => simp [subAt] at h2
    | binop op a b => simp [subAt] at h2
    | tupleE es => simp [subAt] at h2
    | matchE scrut arms => simp [subAt] at h2
    | blockE ss => simp [subAt] at h2
    | loopE ss => simp [subAt] at h2
    | ret o => simp [subAt] at h2
    | assign l r0 => simp [subAt] at h2
    | verbatim v => simp [subAt] at h2
  | Dir.elseB :: ds, e, r, sub, h1, h2 => by
    cases e with
    | ite cond thenB elseB =>
      cases elseB with
      | none => simp [subAt] at h2
      | some el =>
        simp only [subAt] at h2
        simp only [transformExpr] at h1
        cases ht : transformTail f thenB with
        | none => rw [ht] at h1; simp at h1
        | some t2 =>
          rw [ht] at h1
          cases hel : transformElse f (OExpr.some el) with
          | none => rw [hel] at h1; simp at h1
          | some e2 =>
            rw [hel] at h1
            simp only [Option.some.injEq] at h1
            subst h1
            simp only [transformElse] at hel
            cases hee : transformExpr f el with
            | none => rw [hee] at hel; simp at hel
            | some el2 =>
              rw [hee] at hel
              simp only [Option.some.injEq] at hel
              subst hel
              obtain ⟨r2, hr2, hs2⟩ := transform_subAt f ds el el2 sub hee h2
              exact ⟨r2, hr2, by simp [subAt, hs2]⟩
    | lit l => simp [subAt] at h2
    | path segs => simp [subAt] at h2
    | call func args => simp [subAt] at h2
    | methodCall recv m args => simp [subAt] at h2
    | binop op a b => simp [subAt] at h2
    | tupleE es => simp [subAt] at h2
    | matchE scrut arms => simp [subAt] at h2
    | blockE ss => simp [subAt] at h2
    | loopE ss => simp [subAt] at h2
    | ret o => simp [subAt] at h2
    | assign l r0 => simp [subAt] at h2
    | verbatim v => simp [subAt] at h2
  | Dir.blockLast :: ds, e, r, sub, h1, h2 => by
    cases e with
    | blockE ss =>
      simp only [subAt] at h2
      cases hl : lastOf ss with
      | none => rw [hl] at h2; simp at h2
      | some s =>
        rw [hl] at h2
        cases s with
        | exprS te =>
          simp only [transformExpr] at h1
          cases ht : transformTail f ss with
          | none => rw [ht] at h1; simp at h1
          | some ss2 =>
            rw [ht] at h1
            simp only [Option.some.injEq] at h1
            subst h1
            obtain ⟨te2, hte2, hl2⟩ := transformTail_lastOf f ss ss2 te ht hl
            obtain ⟨r2, hr2, hs2⟩ := transform_subAt f ds te te2 sub hte2 h2
            exact ⟨r2, hr2, by simp [subAt, hl2, hs2]⟩
        | localS p o => simp at h2
        | itemFnS n ps o b => simp at h2
        | itemEnumS => simp at h2
        | semiS se => simp at h2
    | lit l => simp [subAt] at h2
    | path segs => simp [subAt] at h2
    | call func args => simp [subAt] at h2
    | methodCall recv m args => simp [subAt] at h2
    | binop op a b => simp [subAt] at h2
    | tupleE es => simp [subAt] at h2
    | matchE scrut arms => simp [subAt] at h2
    | ite c t el => simp [subAt] at h2
    | loopE ss => simp [subAt] at h2
    | ret o => simp [subAt] at h2
    | assign l r0 => simp [subAt] at h2
    | verbatim v => simp [subAt] at h2

/-! ## Idempotence of the rewrite pass -/

/-- A successful `transformTail` keeps the list nonempty with the same head
shape at the front. -/
theorem transformTail_shape (f : String) :
    ∀ (t : Stmt) (ts : StmtList) (r : StmtList),
      transformTail f (StmtList.cons t ts) = Option.some r →
      ∃ u us, r = StmtList.cons u us := by
  intro t ts r h
  cases ts with
  | nil =>
    cases t with
    | exprS e =>
      simp only [transformTail] at h
      cases he : transformExpr f e with
      | none => rw [he] at h; simp at h
      | some e2 => rw [he] at h; simp only [Option.some.injEq] at h; exact ⟨_, _, h.symm⟩
    | localS p o => simp only [transformTail, Option.some.injEq] at h; exact ⟨_, _, h.symm⟩
    | itemFnS n ps o b => simp only [transformTail, Option.some.injEq] at h; exact ⟨_, _, h.symm⟩
    | itemEnumS => simp only [transformTail, Option.some.injEq] at h; exact ⟨_, _, h.symm⟩
    | semiS e => simp only [transformTail, Option.some.injEq] at h; exact ⟨_, _, h.symm⟩
  | cons t2 ts2 =>
    simp only [transformTail] at h
    cases hr : transformTail f (StmtList.cons t2 ts2) with
    | none => rw [hr] at h; simp at h
    | some rest2 => rw [hr] at h; simp only [Option.some.injEq] at h; exact ⟨_, _, h.symm⟩

mutual

/-- `transform_expr` is idempotent: every expression it can produce it maps to
itself, because rewritten positions are `Expr::Verbatim` (ignored, lib.rs
184-187) and the recursion re-descends only into positions that now hold
verbatim nodes. -/
theorem transformExpr_idem (f : String) :
    ∀ (e r : Expr), transformExpr f e = Option.some r → transformExpr f r = Option.some r
  | Expr.lit l, r, h => by
    simp only [transformExpr, Option.some.injEq] at h
    subst h; simp [transformExpr]
  | Expr.path segs, r, h => by
    simp only [transformExpr, Option.some.injEq] at h
    subst h; simp [transformExpr]
  | Expr.binop op a b, r, h => by
    simp only [transformExpr, Option.some.injEq] at h
    subst h; simp [transformExpr]
  | Expr.tupleE es, r, h => by
    simp only [transformExpr, Option.some.injEq] at h
    subst h; simp [transformExpr]
  | Expr.loopE ss, r, h => by
    simp only [transformExpr, Option.some.injEq] at h
    subst h; simp [transformExpr]
  | Expr.assign l r0, r, h => by
    simp only [transformExpr, Option.some.injEq] at h
    subst h; simp [transformExpr]
  | Expr.ret o, r, h => by
    simp only [transformExpr, Option.some.injEq] at h
    subst h; simp [transformExpr]
  | Expr.verbatim v, r, h => by
    simp only [transformExpr, Option.some.injEq] at h
    subst h; simp [transformExpr]
  | Expr.call func args, r, h => by
    cases hid : exprToIdent func with
    | none => simp [transformExpr, hid] at h
    | some id =>
      by_cases hf : id = f
      · simp only [transformExpr, hid, hf, if_true, eq_self_iff_true, Option.some.injEq] at h
        subst h; simp [transformExpr]
      · simp only [transformExpr, hid, if_neg hf, Option.some.injEq] at h
        subst h; simp [transformExpr]
  | Expr.methodCall recv m args, r, h => by
    by_cases hf : m = f
    · simp only [transformExpr, hf, if_true, eq_self_iff_true, Option.some.injEq] at h
      subst h; simp [transformExpr]
    · simp only [transformExpr, if_neg hf, Option.some.injEq] at h
      subst h; simp [transformExpr]
  | Expr.matchE scrut arms, r, h => by
    simp only [transformExpr] at h
    cases ha : transformArms f arms with
    | none => rw [ha] at h; simp at h
    | some arms2 =>
      rw [ha] at h
      simp only [Option.some.injEq] at h
      subst h
      have h2 := transformArms_idem f arms arms2 ha
      simp [transformExpr, h2]
  | Expr.ite cond thenB elseB, r, h => by
    simp only [transformExpr] at h
    cases ht : transformTail f thenB with
    | none => rw [ht] at h; simp at h
    | some t2 =>
      rw [ht] at h
      cases hel : transformElse f elseB with
      | none => rw [hel] at h; simp at h
      | some e2 =>
        rw [hel] at h
        simp only [Option.some.injEq] at h
        subst h
        have h2 := transformTail_idem f thenB t2 ht
        have h3 := transformElse_idem f elseB e2 hel
        simp [transformExpr, h2, h3]
  | Expr.blockE ss, r, h => by
    simp only [transformExpr] at h
    cases ht : transformTail f ss with
    | none => rw [ht] at h; simp at h
    | some ss2 =>
      rw [ht] at h
      simp only [Option.some.injEq] at h
      subst h
      have h2 := transformTail_idem f ss ss2 ht
      simp [transformExpr, h2]

/-- Idempotence for arm lists. -/
theorem transformArms_idem (f : String) :
    ∀ (a a2 : ArmList), transformArms f a = Option.some a2 → transformArms f a2 = Option.some a2
  | ArmList.nil, a2, h => by
    simp only [transformArms, Option.some.injEq] at h
    subst h; simp [transformArms]
  | ArmList.cons p b rest, a2, h => by
    simp only [transformArms] at h
    cases hb : transformExpr f b with
    | none => rw [hb] at h; simp at h
    | some b2 =>
      rw [hb] at h
      cases hr : transformArms f rest with
      | none => rw [hr] at h; simp at h
      | some rest2 =>
        rw [hr] at h
        simp only [Option.some.injEq] at h
        subst h
        have h2 := transformExpr_idem f b b2 hb
        have h3 := transformArms_idem f rest rest2 hr
        simp [transformArms, h2, h3]

/-- Idempotence for else branches. -/
theorem transformElse_idem (f : String) :
    ∀ (o o2 : OExpr), transformElse f o = Option.some o2 → transformElse f o2 = Option.some o2
  | OExpr.none, o2, h => by
    simp only [transformElse, Option.some.injEq] at h
    subst h; simp [transformElse]
  | OExpr.some e, o2, h => by
    simp only [transformElse] at h
    cases he : transformExpr f e with
    | none => rw [he] at h; simp at h
    | some e2 =>
      rw [he] at h
      simp only [Option.some.injEq] at h
      subst h
      have h2 := transformExpr_idem f e e2 he
      simp [transformElse, h2]

/-- Idempotence for branch/block tails. -/
theorem transformTail_idem (f : String) :
    ∀ (ss ss2 : StmtList), transformTail f ss = Option.some ss2 → transformTail f ss2 = Option.some ss2
  | StmtList.nil, ss2, h => by
    simp only [transformTail, Option.some.injEq] at h
    subst h; simp [transformTail]
  | StmtList.cons (Stmt.exprS e) StmtList.nil, ss2, h => by
    simp only [transformTail] at h
    cases he : transformExpr f e with
    | none => rw [he] at h; simp at h
    | some e2 =>
      rw [he] at h
      simp only [Option.some.injEq] at h
      subst h
      have h2 := transformExpr_idem f e e2 he
      simp [transformTail, h2]
  | StmtList.cons (Stmt.localS p o) StmtList.nil, ss2, h => by
    simp only [transformTail, Option.some.injEq] at h
    subst h; simp [transformTail]
  | StmtList.cons (Stmt.itemFnS n ps o b) StmtList.nil, ss2, h => by
    simp only [transformTail, Option.some.injEq] at h
    subst h; simp [transformTail]
  | StmtList.cons Stmt.itemEnumS StmtList.nil, ss2, h => by
    simp only [transformTail, Option.some.injEq] at h
    subst h; simp [transformTail]
  | StmtList.cons (Stmt.semiS e) StmtList.nil, ss2, h => by
    simp only [transformTail, Option.some.injEq] at h
    subst h; simp [transformTail]
  | StmtList.cons s (StmtList.cons t ts), ss2, h => by
    simp only [transformTail] at h
    cases hr : transformTail f (StmtList.cons t ts) with
    | none => rw [hr] at h; simp at h
    | some rest2 =>
      rw [hr] at h
      simp only [Option.some.injEq] at h
      subst h
      have h2 := transformTail_idem f (StmtList.cons t ts) rest2 hr
      obtain ⟨u, us, rfl⟩ := transformTail_shape f t ts rest2 hr
      simp [transformTail, h2]

end

mutual

/-- The statement-level visiting pass maps its own output to itself. -/
theorem visitStmt_idem (f : String) :
    ∀ (s s2 : Stmt), visitStmt f s = Option.some s2 → visitStmt f s2 = Option.some s2
  | Stmt.localS p (OExpr.some e), s2, h => by
    simp only [visitStmt] at h
    cases he : transformExpr f e with
    | none => rw [he] at h; simp at h
    | some e2 =>
      rw [he] at h
      simp only [Option.some.injEq] at h
      subst h
      have h2 := transformExpr_idem f e e2 he
      simp [visitStmt, h2]
  | Stmt.localS p OExpr.none, s2, h => by
    simp only [visitStmt, Option.some.injEq] at h
    subst h; simp [visitStmt]
  | Stmt.itemFnS n ps o b, s2, h => by
    simp only [visitStmt] at h
    cases hb : visitStmts f b with
    | none => rw [hb] at h; simp at h
    | some b2 =>
      rw [hb] at h
      simp only [Option.some.injEq] at h
      subst h
      have h2 := visitStmts_idem f b b2 hb
      simp [visitStmt, h2]
  | Stmt.itemEnumS, s2, h => by
    simp only [visitStmt, Option.some.injEq] at h
    subst h; simp [visitStmt]
  | Stmt.exprS e, s2, h => by
    simp only [visitStmt] at h
    cases he : transformExpr f e with
    | none => rw [he] at h; simp at h
    | some e2 =>
      rw [he] at h
      simp only [Option.some.injEq] at h
      subst h
      have h2 := transformExpr_idem f e e2 he
      simp [visitStmt, h2]
  | Stmt.semiS e, s2, h => by
    simp only [visitStmt] at h
    cases he : transformExpr f e with
    | none => rw [he] at h; simp at h
    | some e2 =>
      rw [he] at h
      simp only [Option.some.injEq] at h
      subst h
      have h2 := transformExpr_idem f e e2 he
      simp [visitStmt, h2]

/-- The visiting pass over a whole block maps its own output to itself. -/
theorem visitStmts_idem (f : String) :
    ∀ (b b2 : StmtList), visitStmts f b = Option.some b2 → visitStmts f b2 = Option.some b2
  | StmtList.nil, b2, h => by
    simp only [visitStmts, Option.some.injEq] at h
    subst h; simp [visitStmts]
  | StmtList.cons s ss, b2, h => by
    simp only [visitStmts] at h
    cases hs : visitStmt f s with
    | none => rw [hs] at h; simp at h
    | some s2 =>
      rw [hs] at h
      cases hss : visitStmts f ss with
      | none => rw [hss] at h; simp at h
      | some ss2 =>
        rw [hss] at h
        simp only [Option.some.injEq] at h
        subst h
        have h2 := visitStmt_idem f s s2 hs
        have h3 := visitStmts_idem f ss ss2 hss
        simp [visitStmts, h2, h3]

end

/-! ## Totality of the rewrite under the panic-freedom predicate -/

mutual

/-- If every visited call has an identifier callee, `transform_expr` cannot
panic. -/
theorem okExpr_some (f : String) :
    ∀ (e : Expr), okExpr e = true → (transformExpr f e).isSome
  | Expr.lit l, _ => by simp [transformExpr]
  | Expr.path segs, _ => by simp [transformExpr]
  | Expr.binop op a b, _ => by simp [transformExpr]
  | Expr.tupleE es, _ => by simp [transformExpr]
  | Expr.loopE ss, _ => by simp [transformExpr]
  | Expr.assign l r0, _ => by simp [transformExpr]
  | Expr.ret o, _ => by simp [transformExpr]
  | Expr.verbatim v, _ => by simp [transformExpr]
  | Expr.call func args, h => by
    simp only [okExpr] at h
    cases hid : exprToIdent func with
    | none => rw [hid] at h; simp at h
    | some id =>
      by_cases hf : id = f <;> simp [transformExpr, hid, hf]
  | Expr.methodCall recv m args, _ => by
    by_cases hf : m = f <;> simp [transformExpr, hf]
  | Expr.matchE scrut arms, h => by
    simp only [okExpr] at h
    have h2 := okArms_some f arms h
    cases ha : transformArms f arms with
    | none => rw [ha] at h2; simp at h2
    | some arms2 => simp [transformExpr, ha]
  | Expr.ite cond thenB elseB, h => by
    simp only [okExpr, Bool.and_eq_true] at h
    have h2 := okTail_some f thenB h.1
    have h3 := okElse_some f elseB h.2
    cases ht : transformTail f thenB with
    | none => rw [ht] at h2; simp at h2
    | some t2 =>
      cases hel : transformElse f elseB with
      | none => rw [hel] at h3; simp at h3
      | some e2 => simp [transformExpr, ht, hel]
  | Expr.blockE ss, h => by
    simp only [okExpr] at h
    have h2 := okTail_some f ss h
    cases ht : transformTail f ss with
    | none => rw [ht] at h2; simp at h2
    | some ss2 => simp [transformExpr, ht]

/-- Totality for arm lists. -/
theorem okArms_some (f : String) :
    ∀ (a : ArmList), okArms a = true → (transformArms f a).isSome
  | ArmList.nil, _ => by simp [transformArms]
  | ArmList.cons p b rest, h => by
    simp only [okArms, Bool.and_eq_true] at h
    have h2 := okExpr_some f b h.1
    have h3 := okArms_some f rest h.2
    cases hb : transformExpr f b with
    | none => rw [hb] at h2; simp at h2
    | some b2 =>
      cases hr : transformArms f rest with
      | none => rw [hr] at h3; simp at h3
      | some rest2 => simp [transformArms, hb, hr]

/-- Totality for else branches. -/
theorem okElse_some (f : String) :
    ∀ (o : OExpr), okElse o = true → (transformElse f o).isSome
  | OExpr.none, _ => by simp [transformElse]
  | OExpr.some e, h => by
    simp only [okElse] at h
    have h2 := okExpr_some f e h
    cases he : transformExpr f e with
    | none => rw [he] at h2; simp at h2
    | some e2 => simp [transformElse, he]

/-- Totality for branch/block tails. -/
theorem okTail_some (f : String) :
    ∀ (ss : StmtList), okTail ss = true → (transformTail f ss).isSome
  | StmtList.nil, _ => by simp [transformTail]
  | StmtList.cons (Stmt.exprS e) StmtList.nil, h => by
    simp only [okTail] at h
    have h2 := okExpr_some f e h
    cases he : transformExpr f e with
    | none => rw [he] at h2; simp at h2
    | some e2 => simp [transformTail, he]
  | StmtList.cons (Stmt.localS p o) StmtList.nil, _ => by simp [transformTail]
  | StmtList.cons (Stmt.itemFnS n ps o b) StmtList.nil, _ => by simp [transformTail]
  | StmtList.cons Stmt.itemEnumS StmtList.nil, _ => by simp [transformTail]
  | StmtList.cons (Stmt.semiS e) StmtList.nil, _ => by simp [transformTail]
  | StmtList.cons s (StmtList.cons t ts), h => by
    simp only [okTail] at h
    have h2 := okTail_some f (StmtList.cons t ts) h
    cases hr : transformTail f (StmtList.cons t ts) with
    | none => rw [hr] at h2; simp at h2
    | some rest2 => simp [transformTail, hr]

end

mutual

/-- Totality of the statement pass under the panic-freedom predicate. -/
theorem okStmt_some (f : String) :
    ∀ (s : Stmt), okStmt s = true → (visitStmt f s).isSome
  | Stmt.localS p (OExpr.some e), h => by
    simp only [okStmt] at h
    have h2 := okExpr_some f e h
    cases he : transformExpr f e with
    | none => rw [he] at h2; simp at h2
    | some e2 => simp [visitStmt, he]
  | Stmt.localS p OExpr.none, _ => by simp [visitStmt]
  | Stmt.itemFnS n ps o b, h => by
    simp only [okStmt] at h
    have h2 := okStmts_some f b h
    cases hb : visitStmts f b with
    | none => rw [hb] at h2; simp at h2
    | some b2 => simp [visitStmt, hb]
  | Stmt.itemEnumS, _ => by simp [visitStmt]
  | Stmt.exprS e, h => by
    simp only [okStmt] at h
    have h2 := okExpr_some f e h
    cases he : transformExpr f e with
    | none => rw [he] at h2; simp at h2
    | some e2 => simp [visitStmt, he]
  | Stmt.semiS e, h => by
    simp only [okStmt] at h
    have h2 := okExpr_some f e h
    cases he : transformExpr f e with
    | none => rw [he] at h2; simp at h2
    | some e2 => simp [visitStmt, he]

/-- Totality of the first pass over a block. -/
theorem okStmts_some (f : String) :
    ∀ (b : StmtList), okStmts b = true → (visitStmts f b).isSome
  | StmtList.nil, _ => by simp [visitStmts]
  | StmtList.cons s ss, h => by
    simp only [okStmts, Bool.and_eq_true] at h
    have h2 := okStmt_some f s h.1
    have h3 := okStmts_some f ss h.2
    cases hs : visitStmt f s with
    | none => rw [hs] at h2; simp at h2
    | some s2 =>
      cases hss : visitStmts f ss with
      | none => rw [hss] at h3; simp at h3
      | some ss2 => simp [visitStmts, hs, hss]

end

/-- A successful first pass on a nonempty block yields a nonempty block. -/
theorem visitStmts_cons_shape (f : String) (s : Stmt) (ss b1 : StmtList)
    (h : visitStmts f (StmtList.cons s ss) = Option.some b1) :
    ∃ s2 ss2, b1 = StmtList.cons s2 ss2 ∧ visitStmt f s = Option.some s2 ∧
      visitStmts f ss = Option.some ss2 := by
  simp only [visitStmts] at h
  cases hs : visitStmt f s with
  | none => rw [hs] at h; simp at h
  | some s2 =>
    rw [hs] at h
    cases hss : visitStmts f ss with
    | none => rw [hss] at h; simp at h
    | some ss2 =>
      rw [hss] at h
      simp only [Option.some.injEq] at h
      exact ⟨s2, ss2, h.symm, rfl, rfl⟩

/-- The second pass (`.last().unwrap()` plus re-visit) succeeds on any output
of the first pass on a nonempty block, by idempotence of the visit. -/
theorem pass2_of_visited (f : String) :
    ∀ (b b1 : StmtList), visitStmts f b = Option.some b1 → b ≠ StmtList.nil →
      (pass2 f b1).isSome
  | StmtList.nil, b1, h, hne => by exact absurd rfl hne
  | StmtList.cons s ss, b1, h, _ => by
    obtain ⟨s2, ss2, rfl, hs, hss⟩ := visitStmts_cons_shape f s ss b1 h
    cases ss with
    | nil =>
      simp only [visitStmts, Option.some.injEq] at hss
      subst hss
      have h2 := visitStmt_idem f s s2 hs
      simp [pass2, h2]
    | cons t ts =>
      obtain ⟨t2, ts2, rfl, _, _⟩ := visitStmts_cons_shape f t ts ss2 hss
      have h2 := pass2_of_visited f (StmtList.cons t ts) (StmtList.cons t2 ts2) hss (by simp)
      cases hp : pass2 f (StmtList.cons t2 ts2) with
      | none => rw [hp] at h2; simp at h2
      | some rest2 => simp [pass2, hp]

/-! ## Claim theorems -/

/-- Claim C1 (code bug): the spec claims `transform(f)(x) == f(x)` for every
terminating self-recursive `f` whose recursive calls are all in tail position.
The spec's own scenario 1, `sum_to`, is such a function, but the transform
leaves its body completely unchanged — explicit `return`s are never rewritten
because the overridden `visit_expr_mut` does not recurse, so syn never
dispatches `visit_expr_return_mut`.  The inner function then returns a raw
`i32` where the driving loop matches on `Action`, so the transformed function
fails where the original returns `3` at input `(2, 0)`. -/
theorem c1_equivalence_failure :
    (transformItemFn sumTo).bind innerBody = Option.some sumTo.body
    ∧ runProgram [sumTo] "sum_to" [Val.int 2, Val.int 0] 300 = Res.ok (Val.int 3)
    ∧ runTransformed sumTo [Val.int 2, Val.int 0] 300 = Res.err :=
  ⟨rfl, rfl, rfl⟩

/-- Claim C2 counterexample: the claim says rewrite rules 1-3 are never applied
to non-tail-position expressions, naming `let` initializers as an example; but
the first pass visits every `Local` initializer, and in
`fn f(n: i32) -> i32 { let x = f(n - 1); x }` it rewrites the initializer
`f(n - 1)` to `Action::Continue((n - 1))` — emitted, after `fold_item_fn`'s
re-parse, as a real call of the path `Action::Continue`. -/
theorem c2_counterexample :
    ((transformItemFn fLet).bind innerBody).bind firstLocalInit
      = Option.some (Expr.call (Expr.path ["Action", "Continue"])
          (elist [Expr.binop BOp.sub (Expr.path ["n"]) (Expr.lit (Lit.int 1))]))
    ∧ firstLocalInit fLet.body
      = Option.some (Expr.call (Expr.path ["f"])
          (elist [Expr.binop BOp.sub (Expr.path ["n"]) (Expr.lit (Lit.int 1))]))
    ∧ ((transformItemFn fLet).bind innerBody).bind firstLocalInit ≠ firstLocalInit fLet.body :=
  ⟨rfl, rfl, fun h => by
    have h2 := congrArg calleePath h
    rw [show calleePath (((transformItemFn fLet).bind innerBody).bind firstLocalInit)
          = ["Action", "Continue"] from rfl,
        show calleePath (firstLocalInit fLet.body) = ["f"] from rfl] at h2
    exact absurd h2 (by decide)⟩

/-- Claim C2 (corrected): expressions nested strictly inside other expressions
are indeed never rewritten — a recursive call that is an argument of another
call survives verbatim inside the `Return` wrapper, and a loop body survives
verbatim inside its wrapper — but statement-level expressions (non-final
statements and `let` initializers) are visited and rewritten. -/
theorem c2_amended (f g : String) (args : ExprList) (hne : g ≠ f) :
    transformExpr f (Expr.call (Expr.path [g]) args)
      = Option.some (Expr.verbatim (VExpr.actionReturn (Expr.call (Expr.path [g]) args)))
    ∧ ∀ ss : StmtList, transformExpr f (Expr.loopE ss)
      = Option.some (Expr.verbatim (VExpr.actionReturn (Expr.loopE ss))) := by
  constructor
  · simp [transformExpr, exprToIdent, hne]
  · intro ss
    simp [transformExpr]

/-- Witness for C2 (corrected): the self-call `f(n)` nested as an argument of
`g(...)` is preserved verbatim inside the `Return` wrapper (spec scenario 3). -/
theorem c2_amended_witness :
    transformExpr "f" (Expr.call (Expr.path ["g"])
        (elist [Expr.call (Expr.path ["f"]) (elist [Expr.path ["n"]])]))
      = Option.some (Expr.verbatim (VExpr.actionReturn (Expr.call (Expr.path ["g"])
          (elist [Expr.call (Expr.path ["f"]) (elist [Expr.path ["n"]])])))) :=
  (c2_amended "f" "g" (elist [Expr.call (Expr.path ["f"]) (elist [Expr.path ["n"]])])
    (by decide)).1

/-- Claim C3 counterexample: applying the macro twice is not the same as
applying it once, not even up to the generated inner name — the second
application panics.  For `fn f(n: i32) -> i32 { f(n) }` the emitted function
contains the rewritten self-call as a real statement `Action::Continue((n))`
inside `f_inner` (the `Verbatim` marker did not survive `fold_item_fn`'s
`parse_quote!` re-parse), and a second application visits that statement and
panics at `parse_quote!(#func)` as `Ident` (lib.rs 146) on the multi-segment
callee `Action::Continue`.  The theorem exhibits the emitted inner body, the
panic of `transform_expr` on its statement, and the failure of the second
application, hence `transform(transform(f)) ≠ transform(f)`. -/
theorem c3_counterexample :
    (transformItemFn f0).bind innerBody
      = Option.some (slist [Stmt.exprS (Expr.call (Expr.path ["Action", "Continue"])
          (elist [Expr.path ["n"]]))])
    ∧ transformExpr "f" (Expr.call (Expr.path ["Action", "Continue"]) (elist [Expr.path ["n"]]))
      = Option.none
    ∧ (transformItemFn f0).bind transformItemFn = Option.none
    ∧ (transformItemFn f0).isSome = true
    ∧ (transformItemFn f0).bind transformItemFn ≠ transformItemFn f0 :=
  ⟨rfl, rfl, rfl, rfl, fun h => by
    have h2 := congrArg Option.isSome h
    rw [show ((transformItemFn f0).bind transformItemFn).isSome = false from rfl,
        show (transformItemFn f0).isSome = true from rfl] at h2
    exact absurd h2 (by decide)⟩

/-- Claim C3 (corrected): what is stable is the statement-level rewrite pass
within one macro run, not the whole macro: re-running the visiting pass on its
own (pre-assembly) output is the identity, because every rewritten position is
an `Expr::Verbatim` node and those are passed through unchanged by any further
pass — which is what keeps `transform_item_fn`'s own second pass (the re-visit
of the last statement, lib.rs 124-127) a no-op.  The markers do not survive
assembly, so a second macro application instead panics (see the
counterexample). -/
theorem c3_amended (f : String) (b b2 : StmtList) (h : visitStmts f b = Option.some b2) :
    visitStmts f b2 = Option.some b2
    ∧ ∀ v : VExpr, transformExpr f (Expr.verbatim v) = Option.some (Expr.verbatim v) :=
  ⟨visitStmts_idem f b b2 h, fun v => transformExpr_verbatim f v⟩

/-- Witness for C3 (corrected): re-visiting the rewritten one-statement block
`{ Action::Return(1) }` leaves it unchanged. -/
theorem c3_amended_witness :
    visitStmts "f" (slist [Stmt.exprS (Expr.verbatim (VExpr.actionReturn (Expr.lit (Lit.int 1))))])
      = Option.some (slist [Stmt.exprS (Expr.verbatim (VExpr.actionReturn (Expr.lit (Lit.int 1))))]) :=
  (c3_amended "f" (slist [Stmt.exprS (Expr.lit (Lit.int 1))])
    (slist [Stmt.exprS (Expr.verbatim (VExpr.actionReturn (Expr.lit (Lit.int 1))))]) rfl).1

/-- Claim C4 counterexample: the transform panics on an empty body
(`.last().unwrap()`, lib.rs 124) and on a tail call whose callee is a
multi-segment path (`parse_quote!(#func)` as `Ident`, lib.rs 146), both named
by the claim as inputs on which it must complete. -/
theorem c4_counterexample :
    transformItemFn emptyFn = Option.none ∧ transformItemFn pathCalleeFn = Option.none :=
  ⟨rfl, rfl⟩

/-- Claim C4 (corrected): the transform completes on every function whose body
is nonempty and in which every call at a visited position (statement level or
classifier-discovered tail position) has a single-identifier callee; the
catch-all `Return` rule covers every other expression shape. -/
theorem c4_amended (fn : FnDef) (hne : fn.body ≠ StmtList.nil) (hok : okStmts fn.body = true) :
    (transformItemFn fn).isSome := by
  have h1 := okStmts_some fn.name fn.body hok
  cases hv : visitStmts fn.name fn.body with
  | none => rw [hv] at h1; simp at h1
  | some b1 =>
    have h2 := pass2_of_visited fn.name fn.body b1 hv hne
    cases hp : pass2 fn.name b1 with
    | none => rw [hp] at h2; simp at h2
    | some b2 => simp [transformItemFn, hv, hp]

/-- Witness for C4 (corrected): the transform of `sum_to` completes. -/
theorem c4_amended_witness : (transformItemFn sumTo).isSome :=
  c4_amended sumTo (fun h => StmtList.noConfusion h) rfl

/-- Claim C5 (confirmed): at every classifier-visited tail position (the
expression handed to `transform_expr`, a match arm body, a then-branch final
expression, an else branch, or a block final expression, iterated), a direct
call whose callee identifier equals the enclosing function's identifier is
rewritten to `Continue` carrying the argument list in original order, and any
other leaf expression there — including calls to other functions — is wrapped
as `Return` of the expression itself. -/
theorem c5_tail_rewrite (f : String) (e r : Expr) (ds : List Dir)
    (h : transformExpr f e = Option.some r) :
    (∀ args, subAt e ds = Option.some (Expr.call (Expr.path [f]) args) →
      subAt r ds = Option.some (Expr.verbatim (VExpr.actionContinue args)))
    ∧ (∀ sub, subAt e ds = Option.some sub → isTailLeaf sub = true →
      isSelfTarget f sub = false →
      subAt r ds = Option.some (Expr.verbatim (VExpr.actionReturn sub))) := by
  constructor
  · intro args hs
    obtain ⟨r2, hr2, hsub⟩ := transform_subAt f ds e r _ h hs
    simp only [transformExpr, exprToIdent, if_true, eq_self_iff_true, Option.some.injEq] at hr2
    rw [← hr2] at hsub
    exact hsub
  · intro sub hs hleaf hself
    obtain ⟨r2, hr2, hsub⟩ := transform_subAt f ds e r _ h hs
    cases sub with
    | matchE scrut arms => simp [isTailLeaf] at hleaf
    | ite c t el => simp [isTailLeaf] at hleaf
    | blockE ss => simp [isTailLeaf] at hleaf
    | ret o => simp [isTailLeaf] at hleaf
    | verbatim v => simp [isTailLeaf] at hleaf
    | call func args =>
      simp only [isSelfTarget, decide_eq_false_iff_not] at hself
      cases hid : exprToIdent func with
      | none => simp [transformExpr, hid] at hr2
      | some g =>
        have hg : ¬ g = f := fun hgf => hself (by rw [hid, hgf])
        simp only [transformExpr, hid, if_neg hg, Option.some.injEq] at hr2
        rw [← hr2] at hsub
        exact hsub
    | methodCall recv m args =>
      simp only [isSelfTarget, decide_eq_false_iff_not] at hself
      simp only [transformExpr, if_neg hself, Option.some.injEq] at hr2
      rw [← hr2] at hsub
      exact hsub
    | lit l =>
      simp only [transformExpr, Option.some.injEq] at hr2
      rw [← hr2] at hsub
      exact hsub
    | path segs =>
      simp only [transformExpr, Option.some.injEq] at hr2
      rw [← hr2] at hsub
      exact hsub
    | binop op a b =>
      simp only [transformExpr, Option.some.injEq] at hr2
      rw [← hr2] at hsub
      exact hsub
    | tupleE es =>
      simp only [transformExpr, Option.some.injEq] at hr2
      rw [← hr2] at hsub
      exact hsub
    | loopE ss =>
      simp only [transformExpr, Option.some.injEq] at hr2
      rw [← hr2] at hsub
      exact hsub
    | assign l r0 =>
      simp only [transformExpr, Option.some.injEq] at hr2
      rw [← hr2] at hsub
      exact hsub

/-- A two-arm match in tail position, as in spec scenario 4. -/
def exMatch : Expr :=
  Expr.matchE (Expr.path ["x"])
    (ArmList.cons (Pat.litP (Lit.int 0)) (Expr.lit (Lit.int 1))
      (ArmList.cons Pat.wild
        (Expr.call (Expr.path ["f"]) (elist [Expr.path ["n"]])) ArmList.nil))

/-- The rewrite of `exMatch` under enclosing function `f`. -/
def exMatchOut : Expr :=
  Expr.matchE (Expr.path ["x"])
    (ArmList.cons (Pat.litP (Lit.int 0))
      (Expr.verbatim (VExpr.actionReturn (Expr.lit (Lit.int 1))))
      (ArmList.cons Pat.wild
        (Expr.verbatim (VExpr.actionContinue (elist [Expr.path ["n"]]))) ArmList.nil))

/-- Witness for C5: in `match x { 0 => 1, n => f(n) }` the self-call arm is
rewritten to `Continue` and the literal arm to `Return`. -/
theorem c5_witness :
    subAt exMatchOut [Dir.arm 1]
      = Option.some (Expr.verbatim (VExpr.actionContinue (elist [Expr.path ["n"]])))
    ∧ subAt exMatchOut [Dir.arm 0]
      = Option.some (Expr.verbatim (VExpr.actionReturn (Expr.lit (Lit.int 1)))) :=
  ⟨(c5_tail_rewrite "f" exMatch exMatchOut [Dir.arm 1] rfl).1 (elist [Expr.path ["n"]]) rfl,
   (c5_tail_rewrite "f" exMatch exMatchOut [Dir.arm 0] rfl).2 (Expr.lit (Lit.int 1)) rfl rfl rfl⟩

/-- Claim C6 (confirmed): at every classifier-visited tail position, a
method-style call whose method name equals the enclosing function's identifier
is rewritten to `Continue` carrying the method call's argument list with the
receiver dropped; a method call whose name differs is wrapped as `Return` of
the whole method call, receiver included. -/
theorem c6_method_rewrite (f : String) (e r : Expr) (ds : List Dir)
    (recv : Expr) (m : String) (args : ExprList)
    (h : transformExpr f e = Option.some r)
    (hs : subAt e ds = Option.some (Expr.methodCall recv m args)) :
    (m = f → subAt r ds = Option.some (Expr.verbatim (VExpr.actionContinue args)))
    ∧ (m ≠ f → subAt r ds
        = Option.some (Expr.verbatim (VExpr.actionReturn (Expr.methodCall recv m args)))) := by
  obtain ⟨r2, hr2, hsub⟩ := transform_subAt f ds e r _ h hs
  constructor
  · intro hm
    subst hm
    simp only [transformExpr, if_true, eq_self_iff_true, Option.some.injEq] at hr2
    rw [← hr2] at hsub
    exact hsub
  · intro hm
    simp only [transformExpr, if_neg hm, Option.some.injEq] at hr2
    rw [← hr2] at hsub
    exact hsub

/-- A block ending in the self method call `s.f(n)`. -/
def exMethodBlock : Expr :=
  Expr.blockE (slist [Stmt.exprS (Expr.methodCall (Expr.path ["s"]) "f" (elist [Expr.path ["n"]]))])

/-- The rewrite of `exMethodBlock` under enclosing function `f`. -/
def exMethodBlockOut : Expr :=
  Expr.blockE (slist [Stmt.exprS (Expr.verbatim (VExpr.actionContinue (elist [Expr.path ["n"]])))])

/-- Witness for C6: in the tail block `{ s.f(n) }` the method call is rewritten
to `Continue((n))`, dropping the receiver `s`. -/
theorem c6_witness :
    subAt exMethodBlockOut [Dir.blockLast]
      = Option.some (Expr.verbatim (VExpr.actionContinue (elist [Expr.path ["n"]]))) :=
  (c6_method_rewrite "f" exMethodBlock exMethodBlockOut [Dir.blockLast]
    (Expr.path ["s"]) "f" (elist [Expr.path ["n"]]) rfl rfl).1 rfl

/-- Claim C7 (code bug): the claim says every explicit `return` is rewritten
(its operand classified by rules 1-3, unit wrapped when absent).  The crate
contains exactly that logic in `transform_expr_return`, but it is unreachable:
its only caller `visit_expr_return_mut` is dispatched solely from syn's
default `visit_expr_mut`, which the crate overrides without recursing.  For
`fn f(x: i32) -> i32 { return 42; }` the transformed inner body is the original
body, unchanged, and the transformed function fails at runtime where the
original returns `42`; while the dead `transform_expr_return` would have
produced the claimed rewrites. -/
theorem c7_return_unreachable :
    (transformItemFn f7).bind innerBody = Option.some f7.body
    ∧ transformExprReturn "f" (OExpr.some (Expr.lit (Lit.int 42)))
      = Option.some (OExpr.some (Expr.verbatim (VExpr.actionReturn (Expr.lit (Lit.int 42)))))
    ∧ transformExprReturn "f" OExpr.none
      = Option.some (OExpr.some (Expr.verbatim VExpr.actionReturnUnit))
    ∧ runProgram [f7] "f" [Val.int 5] 300 = Res.ok (Val.int 42)
    ∧ runTransformed f7 [Val.int 5] 300 = Res.err :=
  ⟨rfl, rfl, rfl, rfl, rfl⟩

/-- Claim C8 (code bug): the claim says every control path that reached a
`return` or fell off the end of the body reaches exactly one
ActionResult-producing expression, including both paths of a tail conditional
with no else branch.  For `fn g(n: i32) { if n > 0 { g(n - 1) } }` the
then-branch is rewritten to `Continue`, but the fall-through path (condition
false) still produces bare unit — no `Action` value — so the driving loop has
no matching arm: the transformed function fails at `n = 0` (and at `n = 1`,
after one `Continue` step) where the original returns unit.  Paths through
explicit `return`s reach no `Action` expression either (see C7). -/
theorem c8_path_invariant_failure :
    (transformItemFn gIf).bind innerBody = Option.some (slist
      [ Stmt.exprS (Expr.ite (Expr.binop BOp.gt (Expr.path ["n"]) (Expr.lit (Lit.int 0)))
          (slist [Stmt.exprS (Expr.call (Expr.path ["Action", "Continue"])
            (elist [Expr.binop BOp.sub (Expr.path ["n"]) (Expr.lit (Lit.int 1))]))])
          OExpr.none) ])
    ∧ runProgram [gIf] "g" [Val.int 0] 300 = Res.ok (Val.tuple [])
    ∧ runTransformed gIf [Val.int 0] 300 = Res.err
    ∧ runProgram [gIf] "g" [Val.int 1] 300 = Res.ok (Val.tuple [])
    ∧ runTransformed gIf [Val.int 1] 300 = Res.err :=
  ⟨rfl, rfl, rfl, rfl, rfl⟩

/-- Claim C9 (confirmed): the rebuilt function keeps the original name,
parameters and return type, and its body is exactly: the two-variant `Action`
enum item; an inner function named from the original, taking one parameter
whose pattern is the tuple of the original parameter patterns and whose type
is the tuple of the original parameter types, returning `Action` over that
tuple type and the original return type (unit when absent), with the rewritten
body; an accumulator initialised from the original parameters; and a loop that
matches the inner call, returning `r` on `Action::Return(r)` and assigning the
accumulator on `Action::Continue(c)`. -/
theorem c9_rebuilt_function (fn out : FnDef) (h : transformItemFn fn = Option.some out) :
    out.name = fn.name ∧ out.params = fn.params ∧ out.output = fn.output ∧
    ∃ b, out.body = StmtList.cons Stmt.itemEnumS
      (StmtList.cons
        (Stmt.itemFnS (fn.name ++ "_inner")
          [(mkTuplePat (fn.params.map Prod.fst), mkTupleTy (fn.params.map Prod.snd))]
          (Option.some (Ty.action (mkTupleTy (fn.params.map Prod.snd))
            (fn.output.getD (Ty.tuple [])))) b)
        (StmtList.cons
          (Stmt.localS (Pat.ident "acc")
            (OExpr.some (mkTupleExpr ((fn.params.map Prod.fst).map patToExpr))))
          (StmtList.cons
            (Stmt.exprS (Expr.loopE (StmtList.cons
              (Stmt.exprS (Expr.matchE
                (Expr.call (Expr.path [fn.name ++ "_inner"])
                  (ExprList.cons (Expr.path ["acc"]) ExprList.nil))
                (ArmList.cons
                  (Pat.ctor ["Action", "Return"] (PatList.cons (Pat.ident "r") PatList.nil))
                  (Expr.ret (OExpr.some (Expr.path ["r"])))
                  (ArmList.cons
                    (Pat.ctor ["Action", "Continue"] (PatList.cons (Pat.ident "c") PatList.nil))
                    (Expr.assign "acc" (Expr.path ["c"]))
                    ArmList.nil))))
              StmtList.nil)))
            StmtList.nil))) := by
  cases hv : visitStmts fn.name fn.body with
  | none => simp [transformItemFn, hv] at h
  | some b1 =>
    cases hp : pass2 fn.name b1 with
    | none => simp [transformItemFn, hv, hp] at h
    | some b2 =>
      simp only [transformItemFn, hv, hp, Option.some.injEq] at h
      subst h
      exact ⟨rfl, rfl, rfl, reparseStmts b2, rfl⟩

/-- Witness for C9: the rebuilt `sum_to` (whose rewritten body is its original
body, see C1/C7) has the claimed shape. -/
theorem c9_witness :
    (foldItemFn sumTo sumTo.body).name = sumTo.name
    ∧ (foldItemFn sumTo sumTo.body).params = sumTo.params
    ∧ (foldItemFn sumTo sumTo.body).output = sumTo.output
    ∧ ∃ b, (foldItemFn sumTo sumTo.body).body = StmtList.cons Stmt.itemEnumS
      (StmtList.cons
        (Stmt.itemFnS (sumTo.name ++ "_inner")
          [(mkTuplePat (sumTo.params.map Prod.fst), mkTupleTy (sumTo.params.map Prod.snd))]
          (Option.some (Ty.action (mkTupleTy (sumTo.params.map Prod.snd))
            (sumTo.output.getD (Ty.tuple [])))) b)
        (StmtList.cons
          (Stmt.localS (Pat.ident "acc")
            (OExpr.some (mkTupleExpr ((sumTo.params.map Prod.fst).map patToExpr))))
          (StmtList.cons
            (Stmt.exprS (Expr.loopE (StmtList.cons
              (Stmt.exprS (Expr.matchE
                (Expr.call (Expr.path [sumTo.name ++ "_inner"])
                  (ExprList.cons (Expr.path ["acc"]) ExprList.nil))
                (ArmList.cons
                  (Pat.ctor ["Action", "Return"] (PatList.cons (Pat.ident "r") PatList.nil))
                  (Expr.ret (OExpr.some (Expr.path ["r"])))
                  (ArmList.cons
                    (Pat.ctor ["Action", "Continue"] (PatList.cons (Pat.ident "c") PatList.nil))
                    (Expr.assign "acc" (Expr.path ["c"]))
                    ArmList.nil))))
              StmtList.nil)))
            StmtList.nil))) :=
  c9_rebuilt_function sumTo (foldItemFn sumTo sumTo.body) rfl

/-- Claim C10 (confirmed): the generated inner function's identifier is
deterministically the original identifier with the fixed suffix `_inner`
(`format_ident!("{}_inner", sig.ident)`, lib.rs 40): it depends only on the
function's name, so any two functions with the same name — in particular a
function and a pre-existing item named exactly `{name}_inner` in its scope —
are mapped to the same generated identifier, which is what makes the collision
the claim describes unavoidable. -/
theorem c10_inner_name (fn out : FnDef) (h : transformItemFn fn = Option.some out) :
    innerFnName out = Option.some (fn.name ++ "_inner")
    ∧ ∀ fn2 out2, transformItemFn fn2 = Option.some out2 → fn2.name = fn.name →
        innerFnName out2 = innerFnName out := by
  have hmain : ∀ (g : FnDef) (o : FnDef), transformItemFn g = Option.some o →
      innerFnName o = Option.some (g.name ++ "_inner") := by
    intro g o hg
    cases hv : visitStmts g.name g.body with
    | none => simp [transformItemFn, hv] at hg
    | some b1 =>
      cases hp : pass2 g.name b1 with
      | none => simp [transformItemFn, hv, hp] at hg
      | some b2 =>
        simp only [transformItemFn, hv, hp, Option.some.injEq] at hg
        subst hg
        rfl
  refine ⟨hmain fn out h, ?_⟩
  intro fn2 out2 h2 hname
  rw [hmain fn2 out2 h2, hmain fn out h, hname]

/-- Witness for C10: the inner function generated for `sum_to` is named
`sum_to_inner`. -/
theorem c10_witness :
    innerFnName (foldItemFn sumTo sumTo.body) = Option.some "sum_to_inner" :=
  (c10_inner_name sumTo (foldItemFn sumTo sumTo.body) rfl).1

end Recursive
